import Mathlib

/-!
# Verification of the SymbolicAI `News` notebook pipeline

The repository contains a single notebook (`src/notebooks/News.ipynb`) that
wires pre-built framework primitives (`Stream`, `Sequence`, `Clean`,
`Translate`, `Outline`, `Compose`, `Trace`, `Log`, `fetch`, `cluster`,
`save`) into a `News` pipeline.  The framework itself is not part of the
repository, so its components (Chunker, Sequential Transformer, fetch/save
behaviour) are modelled from the specification; the notebook's own wiring
(`News.__init__`, `News.forward`, the invocation cell) is embedded from the
source.

Text is represented by its list of words: the spec states chunk
concatenation reconstructs the document "modulo whitespace normalization"
and chunk contents are compared "trimmed", so whitespace is abstracted away
and a token estimate of a piece of text is its word count.
-/

set_option autoImplicit false

/-- Error taxonomy of the pipeline, from the spec (§7), plus the write
failure of §6 ("write fails ... if the path already exists and overwrite is
not requested"). -/
inductive PErr where
  | InvalidInput
  | StageFailure
  | FetchFailure
  | RenderFailure
  | WriteFailure
deriving DecidableEq, Repr

/-- Modelled from the spec: a chunk's "estimated token count".  With text
represented as a word list, the token estimate is the number of words. -/
def estimateTokens (c : List String) : Nat := c.length

/-- Modelled from the spec: sentence boundary detection used for the
"natural boundaries (sentence/paragraph)" split.  A word ends a sentence
when its last character is terminal punctuation. -/
def isSentenceEnd (w : String) : Bool :=
  match w.data.getLast? with
  | some c => c == '.' || c == '!' || c == '?'
  | none => false

/-- Modelled from the spec: split a word list into sentences (maximal runs
of words ending at a sentence-terminating word; a trailing unterminated run
forms a final sentence).  `acc` holds the current sentence reversed. -/
def splitSentencesAux (acc : List String) : List String → List (List String)
  | [] => if acc.isEmpty then [] else [acc.reverse]
  | w :: ws =>
    if isSentenceEnd w then (acc.reverse ++ [w]) :: splitSentencesAux [] ws
    else splitSentencesAux (w :: acc) ws

/-- Modelled from the spec: the sentences of a document (as word lists). -/
def splitSentences (ws : List String) : List (List String) :=
  splitSentencesAux [] ws

/-- Modelled from the spec: split an oversized sentence into consecutive
groups of at most `B` words (the fallback when a single sentence exceeds
the token budget). -/
def groupsOf (B : Nat) : List String → List (List String)
  | [] => []
  | w :: ws => (w :: ws.take (B - 1)) :: groupsOf B (ws.drop (B - 1))
termination_by l => l.length
decreasing_by
  simp only [List.length_drop, List.length_cons]
  omega

/-- Modelled from the spec: greedy packing of sentences into chunks.  `acc`
is the chunk under construction.  A sentence is appended to the current
chunk when the budget still allows it; otherwise the current chunk is
emitted and a fresh one starts.  A sentence larger than the whole budget is
split at word boundaries via `groupsOf`. -/
def packGreedy (B : Nat) : List String → List (List String) → List (List String)
  | acc, [] => if acc.isEmpty then [] else [acc]
  | acc, s :: ss =>
    if B < s.length then
      (if acc.isEmpty then [] else [acc]) ++ groupsOf B s ++ packGreedy B [] ss
    else if acc.length + s.length ≤ B then
      packGreedy B (acc ++ s) ss
    else
      (if acc.isEmpty then [] else [acc]) ++ packGreedy B s ss

/-- Modelled from the spec: chunk a document (word list) under a word
budget `B`: split into sentences, then pack greedily. -/
def chunkWords (B : Nat) (ws : List String) : List (List String) :=
  packGreedy B [] (splitSentences ws)

/-- Modelled from the spec (§4.1): `chunk(text, maxTokens)` fails with
`InvalidInput` when `maxTokens <= 0` or the text is empty (no words),
otherwise returns the greedy sentence-boundary chunking. -/
def chunk (text : List String) (maxTokens : Int) : Except PErr (List (List String)) :=
  if maxTokens ≤ 0 || text.isEmpty then .error .InvalidInput
  else .ok (chunkWords maxTokens.toNat text)

/-! ### Chunker lemmas -/

theorem splitSentencesAux_flatten (ws : List String) :
    ∀ acc, (splitSentencesAux acc ws).flatten = acc.reverse ++ ws := by
  induction ws with
  | nil =>
    intro acc
    by_cases h : acc.isEmpty
    · simp [splitSentencesAux, h, List.isEmpty_iff.mp h]
    · simp [splitSentencesAux, h]
  | cons w ws ih =>
    intro acc
    by_cases h : isSentenceEnd w
    · simp [splitSentencesAux, h, ih]
    · simp [splitSentencesAux, h, ih]

theorem splitSentences_flatten (ws : List String) :
    (splitSentences ws).flatten = ws := by
  simpa using splitSentencesAux_flatten ws []

theorem groupsOf_flatten (B : Nat) (ws : List String) :
    (groupsOf B ws).flatten = ws := by
  induction ws using groupsOf.induct B with
  | case1 => simp [groupsOf]
  | case2 w ws ih =>
    simp [groupsOf, ih]

theorem groupsOf_mem (B : Nat) (hB : 1 ≤ B) (ws : List String) :
    ∀ c ∈ groupsOf B ws, c ≠ [] ∧ c.length ≤ B := by
  induction ws using groupsOf.induct B with
  | case1 => simp [groupsOf]
  | case2 w ws ih =>
    intro c hc
    simp only [groupsOf, List.mem_cons] at hc
    rcases hc with rfl | hc
    · refine ⟨by simp, ?_⟩
      simp only [List.length_cons, List.length_take]
      omega
    · exact ih c hc

theorem packGreedy_flatten (B : Nat) (ss : List (List String)) :
    ∀ acc, (packGreedy B acc ss).flatten = acc ++ ss.flatten := by
  induction ss with
  | nil =>
    intro acc
    by_cases h : acc.isEmpty
    · simp [packGreedy, h, List.isEmpty_iff.mp h]
    · simp [packGreedy, h]
  | cons s ss ih =>
    intro acc
    by_cases h1 : B < s.length
    · by_cases h : acc.isEmpty
      · simp [packGreedy, h1, h, ih, groupsOf_flatten, List.isEmpty_iff.mp h]
      · simp [packGreedy, h1, h, ih, groupsOf_flatten]
    · by_cases h2 : acc.length + s.length ≤ B
      · simp [packGreedy, h1, h2, ih]
      · by_cases h : acc.isEmpty
        · simp [packGreedy, h1, h2, h, ih, List.isEmpty_iff.mp h]
        · simp [packGreedy, h1, h2, h, ih]

theorem packGreedy_mem (B : Nat) (hB : 1 ≤ B) (ss : List (List String)) :
    ∀ acc, acc.length ≤ B →
      ∀ c ∈ packGreedy B acc ss, c ≠ [] ∧ c.length ≤ B := by
  induction ss with
  | nil =>
    intro acc hacc c hc
    by_cases h : acc.isEmpty
    · simp [packGreedy, h] at hc
    · simp [packGreedy, h] at hc
      subst hc
      exact ⟨fun hnil => by simp [hnil] at h, hacc⟩
  | cons s ss ih =>
    intro acc hacc c hc
    by_cases h1 : B < s.length
    · simp only [packGreedy, if_pos h1, List.mem_append] at hc
      rcases hc with (hc | hc) | hc
      · by_cases h : acc.isEmpty
        · simp [h] at hc
        · simp [h] at hc
          subst hc
          exact ⟨fun hnil => by simp [hnil] at h, hacc⟩
      · exact groupsOf_mem B hB s c hc
      · exact ih [] (by simp) c hc
    · by_cases h2 : acc.length + s.length ≤ B
      · simp only [packGreedy, if_neg h1, if_pos h2] at hc
        exact ih (acc ++ s) (by simp; omega) c hc
      · simp only [packGreedy, if_neg h1, if_neg h2, List.mem_append] at hc
        rcases hc with hc | hc
        · by_cases h : acc.isEmpty
          · simp [h] at hc
          · simp [h] at hc
            subst hc
            exact ⟨fun hnil => by simp [hnil] at h, hacc⟩
        · exact ih s (by omega) c hc

theorem chunkWords_flatten (B : Nat) (ws : List String) :
    (chunkWords B ws).flatten = ws := by
  simp [chunkWords, packGreedy_flatten, splitSentences_flatten]

theorem chunkWords_mem (B : Nat) (hB : 1 ≤ B) (ws : List String) :
    ∀ c ∈ chunkWords B ws, c ≠ [] ∧ c.length ≤ B := by
  exact packGreedy_mem B hB (splitSentences ws) [] (by simp)

theorem chunkWords_ne_nil (B : Nat) (ws : List String) (h : ws ≠ []) :
    chunkWords B ws ≠ [] := by
  intro hnil
  have := chunkWords_flatten B ws
  rw [hnil] at this
  exact h (by simpa using this.symm)

/-! ## Sequential Transformer (`Sequence`) -/

/-- A transformation stage: a named text transformation `string -> string`
(externally backed, e.g. by an LLM call) that may fail with a
`StageFailure`-style error, per the spec (§4.2, §6 `TextStage`). -/
def Stage : Type := String → Except PErr String

/-- Modelled from the spec (§4.2) and the notebook's `Sequence` expression:
apply each stage's function to the accumulated output of the previous
stage, in the given order; the first stage receives the raw chunk text; a
stage failure fails the whole chunk transformation. -/
def transform : List Stage → String → Except PErr String
  | [], c => .ok c
  | s :: ss, c =>
    match s c with
    | .error e => .error e
    | .ok c' => transform ss c'

/-- An uppercase stage (for the spec's scenario): maps every character of
the chunk to upper case. -/
def uppercaseStage : Stage := fun s => .ok (String.mk (s.data.map Char.toUpper))

/-- A reverse stage (for the spec's scenario): reverses the characters of
the chunk. -/
def reverseStage : Stage := fun s => .ok (String.mk s.data.reverse)

/-! ## The `News` pipeline wiring (from `src/notebooks/News.ipynb`) -/

/-- The `filters` argument of `News.__init__`: the notebook accepts either
a single filter `Expression` or a `List`/`tuple` of filters. -/
inductive FiltersArg where
  | single (f : Stage)
  | many (fs : List Stage)

/-- From `News.__init__`:
`filters = filters if isinstance(filters, List) or isinstance(filters, tuple) else [filters]` —
a non-list, non-tuple argument is wrapped into a one-element list. -/
def normalizeFilters : FiltersArg → List Stage
  | .single f => [f]
  | .many fs => fs

/-- From `News.__init__`: the `data_stream` pipeline
`Stream(Sequence(Clean(), Translate(), Outline(), *filters, Compose(...)))`.
The `Clean`, `Translate`, `Outline` and `Compose` expressions are external
LLM-backed stages, taken here as parameters. -/
def newsDataStream (clean translate outline compose : Stage)
    (filters : FiltersArg) : List Stage :=
  [clean, translate, outline] ++ normalizeFilters filters ++ [compose]

/-- Modelled from the spec (`Stream` semantics) and the `News.forward`
loop `for news in self.data_stream(res): vals.append(str(news))`: apply the
`Sequence` of stages to each chunk, collecting the results in chunk order;
a failing chunk transformation fails the stream.  A chunk (word list) is
rendered back to text for the string stages. -/
def streamChunks (stages : List Stage) : List (List String) → Except PErr (List String)
  | [] => .ok []
  | c :: cs =>
    match transform stages (String.intercalate " " c) with
    | .error e => .error e
    | .ok v =>
      match streamChunks stages cs with
      | .error e => .error e
      | .ok vs => .ok (v :: vs)

/-- Observable intermediate state of one pipeline run: the chunks the
Chunker produced (if chunking happened), the list handed to the clusterer
(if the stream completed), and the overall result. -/
structure RunTrace where
  chunksProduced : Option (List (List String))
  clusterInput : Option (List String)
  result : Except PErr String

/-- From `News.forward` (notebook cell 11) with the framework pieces
modelled from the spec: fetch the document, chunk it (`Stream`), transform
each chunk (`Sequence`), then cluster/map/render the collected values
(`Symbol(vals).cluster()` and `.map()` are external, abstracted as
`clusterMap`).  Any failure aborts the run and is surfaced undecorated. -/
def runNews (fetchRes : Except PErr (List String)) (B : Int)
    (stages : List Stage) (clusterMap : List String → String) : RunTrace :=
  match fetchRes with
  | .error e => ⟨none, none, .error e⟩
  | .ok doc =>
    match chunk doc B with
    | .error e => ⟨none, none, .error e⟩
    | .ok cs =>
      match streamChunks stages cs with
      | .error e => ⟨some cs, none, .error e⟩
      | .ok vals => ⟨some cs, some vals, .ok (clusterMap vals)⟩

/-! ## Persistence (`res.save(path, replace=False)`) -/

/-- Modelled from the spec (§6): the persisted files, as (path, content)
pairs. -/
def FileSys : Type := List (String × String)

/-- Whether a path already exists in the file system. -/
def pathExists (fs : FileSys) (path : String) : Bool :=
  fs.any (fun pc => pc.1 == path)

/-- Modelled from the spec (§6) and `res.save(path, replace=False)`:
writing fails when the path already exists and overwrite (`replace`) is
not requested; otherwise the content is stored at the path. -/
def saveFile (fs : FileSys) (path content : String) (replace : Bool) :
    Except PErr FileSys :=
  if pathExists fs path && !replace then .error .WriteFailure
  else .ok ((path, content) :: fs.filter (fun pc => pc.1 != path))

/-- From the notebook invocation cell
(`res = expr()` followed by `res.save(path, replace=False)`): run the
pipeline, then save the rendered result.  A pipeline failure aborts before
saving, so nothing is persisted; a save failure is fatal to the invocation
but leaves the file system unchanged. -/
def invocation (fetchRes : Except PErr (List String)) (B : Int)
    (stages : List Stage) (clusterMap : List String → String)
    (fs : FileSys) (path : String) (replace : Bool) :
    Except PErr String × FileSys :=
  match (runNews fetchRes B stages clusterMap).result with
  | .error e => (.error e, fs)
  | .ok out =>
    match saveFile fs path out replace with
    | .error e => (.error e, fs)
    | .ok fs' => (.ok out, fs')

/-! ## `Trace` and `Log` decorators -/

/-- An expression in the notebook sense: a callable producing a value
together with diagnostic log lines. -/
def ExprD (α β : Type) : Type := α → β × List String

/-- From the notebook's `Trace` decorator, modelled from the spec (§6):
observes the wrapped expression's inputs/outputs for diagnostics and
passes the value through unchanged. -/
def Trace {α β : Type} (e : ExprD α β) : ExprD α β :=
  fun a => ((e a).1, "Trace: stage observed" :: (e a).2)

/-- From the notebook's `Log` decorator, modelled from the spec (§6): logs
the wrapped expression's diagnostics and passes the value through
unchanged. -/
def Log {α β : Type} (e : ExprD α β) : ExprD α β :=
  fun a => ((e a).1, (e a).2 ++ ["Log: recorded"])

/-- The `News` pipeline as a notebook expression (`news` in cell 13/15),
producing the run trace and no diagnostics of its own. -/
def newsExpr (fetchRes : Except PErr (List String)) (B : Int)
    (stages : List Stage) (clusterMap : List String → String) :
    ExprD Unit RunTrace :=
  fun _ => (runNews fetchRes B stages clusterMap, [])

/-! ## Pipeline helper lemmas -/

theorem streamChunks_get (stages : List Stage) :
    ∀ (cs : List (List String)) (vs : List String),
      streamChunks stages cs = .ok vs →
      vs.length = cs.length ∧
      ∀ (i : Nat) (h1 : i < cs.length) (h2 : i < vs.length),
        transform stages (String.intercalate " " (cs.get ⟨i, h1⟩)) =
          .ok (vs.get ⟨i, h2⟩) := by
  intro cs
  induction cs with
  | nil =>
    intro vs h
    simp only [streamChunks] at h
    cases h
    exact ⟨rfl, fun i h1 _ => absurd h1 (by simp)⟩
  | cons c cs ih =>
    intro vs h
    simp only [streamChunks] at h
    cases ht : transform stages (String.intercalate " " c) with
    | error e => rw [ht] at h; cases h
    | ok v =>
      rw [ht] at h
      cases hs : streamChunks stages cs with
      | error e => rw [hs] at h; cases h
      | ok vs' =>
        rw [hs] at h
        cases h
        obtain ⟨hlen, hget⟩ := ih vs' hs
        refine ⟨by simp [hlen], ?_⟩
        intro i h1 h2
        cases i with
        | zero => simpa using ht
        | succ j =>
          exact hget j (by simpa using h1) (by simpa using h2)

/-! ## The claims -/

/-- C1: for every text `T` and budget `B > 0`, whenever the Chunker's
`chunk(T, B)` returns a sequence of chunks, concatenating the chunks in
index order reproduces `T`'s content (word for word), and every chunk's
estimated token count is at most `B`. -/
theorem chunk_reconstructs_and_bounded (T : List String) (B : Int)
    (cs : List (List String)) (hB : 0 < B) (h : chunk T B = .ok cs) :
    cs.flatten = T ∧ ∀ c ∈ cs, (estimateTokens c : Int) ≤ B := by
  by_cases h0 : B ≤ 0
  · omega
  · by_cases hT : T.isEmpty
    · simp [chunk, h0, hT] at h
    · simp only [chunk, h0, hT, decide_False, Bool.false_or, if_neg,
        Bool.not_eq_true, decide_eq_true_eq] at h
      simp only [Except.ok.injEq] at h
      subst h
      refine ⟨chunkWords_flatten _ _, ?_⟩
      intro c hcmem
      have hB1 : 1 ≤ B.toNat := by omega
      have hlen := (chunkWords_mem B.toNat hB1 T c hcmem).2
      simp only [estimateTokens]
      omega

/-- Witness for C1 at `T = ["a.", "b."]`, `B = 1`. -/
theorem chunk_reconstructs_and_bounded_witness :
    ((0 : Int) < 1 ∧ chunk ["a.", "b."] 1 = .ok [["a."], ["b."]]) ∧
    (([["a."], ["b."]] : List (List String)).flatten = ["a.", "b."] ∧
      ∀ c ∈ ([["a."], ["b."]] : List (List String)), (estimateTokens c : Int) ≤ 1) :=
  ⟨⟨by decide, by rfl⟩,
    chunk_reconstructs_and_bounded ["a.", "b."] 1 [["a."], ["b."]] (by decide) (by rfl)⟩

/-- C6: `chunk(text, maxTokens)` fails (with `InvalidInput`) exactly when
`maxTokens ≤ 0` or the text is empty; for all other inputs it returns a
non-empty sequence of non-empty chunks. -/
theorem chunk_invalid_input_characterization (T : List String) (B : Int) :
    (chunk T B = .error .InvalidInput ↔ (B ≤ 0 ∨ T = [])) ∧
    (¬(B ≤ 0 ∨ T = []) →
      ∃ cs, chunk T B = .ok cs ∧ cs ≠ [] ∧ ∀ c ∈ cs, c ≠ []) := by
  constructor
  · constructor
    · intro h
      by_contra hcon
      push_neg at hcon
      obtain ⟨h0, hT⟩ := hcon
      simp [chunk, h0, List.isEmpty_iff, hT] at h
    · intro h
      rcases h with h0 | hT
      · simp [chunk, h0]
      · simp [chunk, List.isEmpty_iff, hT]
  · intro h
    push_neg at h
    obtain ⟨h0, hT⟩ := h
    refine ⟨chunkWords B.toNat T, ?_, ?_, ?_⟩
    · simp [chunk, h0, List.isEmpty_iff, hT]
    · exact chunkWords_ne_nil B.toNat T hT
    · intro c hc
      exact (chunkWords_mem B.toNat (by omega) T c hc).1

/-- Witness for C6 at `T = ["a."]`, `B = 2`. -/
theorem chunk_invalid_input_characterization_witness :
    ¬((2 : Int) ≤ 0 ∨ (["a."] : List String) = []) ∧
    ∃ cs, chunk ["a."] 2 = .ok cs ∧ cs ≠ [] ∧ ∀ c ∈ cs, c ≠ [] :=
  ⟨by decide, (chunk_invalid_input_characterization ["a."] 2).2 (by decide)⟩

/-- C7: the Chunker is deterministic — two calls with the same text and
the same budget produce identical chunk boundaries. -/
theorem chunk_deterministic (T : List String) (B : Int)
    (r₁ r₂ : Except PErr (List (List String)))
    (h₁ : chunk T B = r₁) (h₂ : chunk T B = r₂) : r₁ = r₂ :=
  h₁ ▸ h₂ ▸ rfl

/-- Witness for C7 at `T = ["a."]`, `B = 1`. -/
theorem chunk_deterministic_witness :
    chunk ["a."] 1 = chunk ["a."] 1 :=
  chunk_deterministic ["a."] 1 (chunk ["a."] 1) (chunk ["a."] 1) rfl rfl

/-- C2: when the initial fetch fails, the whole invocation aborts before
any chunking occurs (`chunksProduced = none`), the fetch failure is the
error reported to the caller, and no partial result is persisted (the file
system is returned unchanged). -/
theorem fetch_failure_aborts (e : PErr) (B : Int) (stages : List Stage)
    (clusterMap : List String → String) (fs : FileSys) (path : String)
    (replace : Bool) :
    runNews (.error e) B stages clusterMap =
      ⟨none, none, .error e⟩ ∧
    invocation (.error e) B stages clusterMap fs path replace = (.error e, fs) :=
  ⟨rfl, rfl⟩

/-- C3: the per-chunk transformation results are collected in original
chunk order: whenever a run produced chunks `cs` and handed `vs` to the
clusterer, `vs` has one entry per chunk and its `i`-th element is the
(successful) transformation of the `i`-th chunk. -/
theorem news_cluster_input_order (fetchRes : Except PErr (List String))
    (B : Int) (stages : List Stage) (clusterMap : List String → String)
    (cs : List (List String)) (vs : List String)
    (hcs : (runNews fetchRes B stages clusterMap).chunksProduced = some cs)
    (hvs : (runNews fetchRes B stages clusterMap).clusterInput = some vs) :
    vs.length = cs.length ∧
    ∀ (i : Nat) (h1 : i < cs.length) (h2 : i < vs.length),
      transform stages (String.intercalate " " (cs.get ⟨i, h1⟩)) =
        .ok (vs.get ⟨i, h2⟩) := by
  cases fetchRes with
  | error e => simp [runNews] at hcs
  | ok doc =>
    cases hch : chunk doc B with
    | error e => simp [runNews, hch] at hcs
    | ok cs0 =>
      cases hst : streamChunks stages cs0 with
      | error e => simp [runNews, hch, hst] at hvs
      | ok vs0 =>
        simp only [runNews, hch, hst, Option.some.injEq] at hcs hvs
        subst hcs
        subst hvs
        exact streamChunks_get stages _ _ hst

/-- Witness for C3: a two-chunk document run through an uppercase stage. -/
theorem news_cluster_input_order_witness :
    ((runNews (.ok ["a.", "b."]) 1 [uppercaseStage]
        (String.intercalate "|")).chunksProduced = some [["a."], ["b."]] ∧
      (runNews (.ok ["a.", "b."]) 1 [uppercaseStage]
        (String.intercalate "|")).clusterInput = some ["A.", "B."]) ∧
    ((["A.", "B."] : List String).length = ([["a."], ["b."]] : List (List String)).length ∧
      ∀ (i : Nat) (h1 : i < ([["a."], ["b."]] : List (List String)).length)
        (h2 : i < (["A.", "B."] : List String).length),
        transform [uppercaseStage]
            (String.intercalate " " (([["a."], ["b."]] : List (List String)).get ⟨i, h1⟩)) =
          .ok ((["A.", "B."] : List String).get ⟨i, h2⟩)) :=
  ⟨⟨rfl, rfl⟩,
    news_cluster_input_order (.ok ["a.", "b."]) 1 [uppercaseStage]
      (String.intercalate "|") [["a."], ["b."]] ["A.", "B."] rfl rfl⟩

/-- C4: the Sequential Transformer applies the stages left to right — the
head stage receives the raw chunk text and the remaining stages receive
the accumulated output — and applying `[uppercase, reverse]` to the chunk
`"cab"` yields `"BAC"`. -/
theorem transform_left_to_right :
    (∀ (s : Stage) (ss : List Stage) (c : String),
        transform (s :: ss) c = (s c).bind (transform ss)) ∧
    transform [uppercaseStage, reverseStage] "cab" = .ok "BAC" := by
  constructor
  · intro s ss c
    simp only [transform]
    cases s c <;> rfl
  · rfl

/-- C5: the Sequential Transformer with an empty stage list returns the
input chunk's text unchanged (identity law). -/
theorem transform_empty_identity (c : String) : transform [] c = .ok c := rfl

/-- C8: saving to an already-existing path with `replace = False` fails;
the write failure is fatal to the invocation (which reports it and leaves
the file system unchanged) but not to the pipeline, whose result stays the
successfully computed output. -/
theorem save_no_overwrite_fatal (fs : FileSys) (path content : String)
    (h : pathExists fs path = true) :
    saveFile fs path content false = .error .WriteFailure ∧
    ∀ (fetchRes : Except PErr (List String)) (B : Int) (stages : List Stage)
      (clusterMap : List String → String) (out : String),
      (runNews fetchRes B stages clusterMap).result = .ok out →
      invocation fetchRes B stages clusterMap fs path false =
        (.error .WriteFailure, fs) := by
  constructor
  · simp [saveFile, h]
  · intro fetchRes B stages clusterMap out hres
    simp [invocation, hres, saveFile, h]

/-- Witness for C8: a one-chunk pipeline whose output cannot be saved over
an existing path. -/
theorem save_no_overwrite_fatal_witness :
    pathExists [("results/news.html", "old")] "results/news.html" = true ∧
    (saveFile [("results/news.html", "old")] "results/news.html" "new" false =
        .error .WriteFailure ∧
      invocation (.ok ["a."]) 1 [] (String.intercalate "|")
          [("results/news.html", "old")] "results/news.html" false =
        (.error .WriteFailure, [("results/news.html", "old")])) := by
  refine ⟨by rfl, ?_, ?_⟩
  · exact (save_no_overwrite_fatal [("results/news.html", "old")]
      "results/news.html" "new" (by rfl)).1
  · exact (save_no_overwrite_fatal [("results/news.html", "old")]
      "results/news.html" "new" (by rfl)).2
      (.ok ["a."]) 1 [] (String.intercalate "|") "a." rfl

/-- C9: the `Trace`/`Log` decorators are pass-through: for every wrapped
expression and every input, `Log(Trace(e))` evaluates to the same value as
`e` alone; in particular wrapping the `News` pipeline does not change the
run's outcome. -/
theorem trace_log_pass_through :
    (∀ (α β : Type) (e : ExprD α β) (a : α), (Log (Trace e) a).1 = (e a).1) ∧
    ∀ (fetchRes : Except PErr (List String)) (B : Int) (stages : List Stage)
      (clusterMap : List String → String),
      (Log (Trace (newsExpr fetchRes B stages clusterMap)) ()).1 =
        runNews fetchRes B stages clusterMap :=
  ⟨fun _ _ _ _ => rfl, fun _ _ _ _ => rfl⟩

/-- C10: the `News` constructor normalizes its `filters` argument — a
single filter Expression is wrapped into a one-element list, so it builds
exactly the same `data_stream` pipeline as a one-element list containing
that Expression. -/
theorem news_filters_normalization (clean translate outline compose f : Stage) :
    newsDataStream clean translate outline compose (.single f) =
      newsDataStream clean translate outline compose (.many [f]) :=
  rfl
